import Mathlib

/-!
Shallow embedding of the skygear-server identity core (package `skydb`:
`AuthData`, `AuthInfo`) and the field-access update handler, together with
proofs of the specified properties.

Go maps are embedded as association lists with pairwise-distinct keys
(`List.Nodup` on the key column); Go's `m[k]` on a `map[string]interface{}`
yields `nil` for an absent key, which is embedded as `goLookup` returning
`Value.null`. Dynamically-typed field values (`interface{}`) are embedded as
the tagged union `Value`.
-/

namespace Skygear

/-- Tagged value union standing for Go's dynamically typed record field values
(`interface{}`): null, string, number, boolean. -/
inductive Value where
  | null
  | str (s : String)
  | num (n : Int)
  | boolean (b : Bool)
deriving DecidableEq, Repr

/-- A Go `map[string]interface{}`, embedded as an association list. -/
abbrev GoMap := List (String × Value)

/-- Go map indexing `m[k]`: the stored value, or `nil` (`Value.null`) when the
key is absent. -/
def goLookup : GoMap → String → Value
  | [], _ => Value.null
  | p :: rest, k => if p.1 = k then p.2 else goLookup rest k

/-- Go map assignment `m[k] = v`: overwrite the entry for `k`, or append a new
entry when `k` is absent. -/
def mapSet : GoMap → String → Value → GoMap
  | [], k, v => [(k, v)]
  | p :: rest, k, v => if p.1 = k then (k, v) :: rest else p :: mapSet rest k v

/-- `AuthData` from `skydb`: candidate identity attributes (`data`) paired with
the deployer-declared ordered key groups (`keys`). -/
structure AuthData where
  data : GoMap
  keys : List (List String)
deriving DecidableEq, Repr

/-- `NewAuthData`. -/
def NewAuthData (data : GoMap) (authRecordKeys : List (List String)) : AuthData :=
  ⟨data, authRecordKeys⟩

namespace AuthData

/-- `isFieldEmpty`: `a.data[key] == nil`. -/
def isFieldEmpty (a : AuthData) (key : String) : Bool :=
  decide (goLookup a.data key = Value.null)

/-- Inserting a key into the accumulated key list, keeping set semantics
(the Go code stores keys into a `map[string]bool`). -/
def insertKey (acc : List String) (k : String) : List String :=
  if acc.contains k then acc else acc ++ [k]

/-- `allKeys`: the union of the fields of every declared key group. -/
def allKeys (a : AuthData) : List String :=
  a.keys.foldl (fun acc ks => ks.foldl insertKey acc) []

/-- The inner double loop of `usingKeys` for a single field `k` of a group:
the number of data entries `dk` with `k == dk && !a.isFieldEmpty(dk)`. -/
def keyCount (a : AuthData) (k : String) : Nat :=
  a.data.countP (fun p => k == p.1 && !(a.isFieldEmpty p.1))

/-- The per-group `count` accumulated by `usingKeys` over the group's fields. -/
def groupCount (a : AuthData) (ks : List String) : Nat :=
  ks.foldl (fun c k => c + a.keyCount k) 0

/-- The group scan of `usingKeys`: return the first group whose length equals
its count, else the empty list. -/
def usingKeysAux (a : AuthData) : List (List String) → List String
  | [] => []
  | ks :: rest => if ks.length = a.groupCount ks then ks else a.usingKeysAux rest

/-- `usingKeys`: scan the declared groups in order, returning the first whose
field count over the data equals its length. -/
def usingKeys (a : AuthData) : List String :=
  a.usingKeysAux a.keys

/-- The copy loop of `GetData`: `c := {}; for k, v := range a.data { c[k] = v }`. -/
def getDataCopy (d : GoMap) : GoMap :=
  d.foldl (fun c p => mapSet c p.1 p.2) []

/-- `IsValid`: every data field must occur in `allKeys`, and `usingKeys` must be
non-empty. -/
def IsValid (a : AuthData) : Bool :=
  a.data.all (fun p => (a.allKeys).contains p.1) && decide (0 < a.usingKeys.length)

/-- `IsEmpty`: no entries, or every value is null. -/
def IsEmpty (a : AuthData) : Bool :=
  if a.data.length = 0 then true
  else a.data.all (fun p => a.isFieldEmpty p.1)

/-- `UpdateFromRecordData`: for every field name in `allKeys`, overwrite the
internal attribute value with the record's value (`a.data[k] = data[k]`). -/
def UpdateFromRecordData (a : AuthData) (rec : GoMap) : AuthData :=
  { a with data := (a.allKeys).foldl (fun d k => mapSet d k (goLookup rec k)) a.data }

end AuthData

/-- The spec's notion of a key group being fully satisfied by the data: every
field of the group is present with a non-null value. -/
def satisfiedGroup (d : GoMap) (ks : List String) : Bool :=
  ks.all (fun k => !(decide (goLookup d k = Value.null)))

/-- Written from the spec's words for comparison with `usingKeys`: the first
group, in declared priority order, that is fully satisfied, or the empty list
when none is. -/
def specFirstSatisfiedGroup (d : GoMap) (keys : List (List String)) : List String :=
  (keys.find? (satisfiedGroup d)).getD []

/-- `skydb.Expression`: a key path (field reference) or a literal value. -/
inductive Expression where
  | keyPath (k : String)
  | literal (v : Value)
deriving DecidableEq, Repr

/-- The predicate operators used by the matcher. -/
inductive Operator where
  | equal
  | and
  | or
deriving DecidableEq, Repr

/-- `skydb.Predicate` trees: the Go `Children []interface{}` holds either
`Expression`s or nested `Predicate`s, embedded as one recursive node type. -/
inductive PredNode where
  | expr (e : Expression)
  | node (op : Operator) (children : List PredNode)
deriving Repr

namespace AuthData

/-- The `appendEqualPredicateForKey` closure of `MakeEqualPredicate`. -/
def appendEqualPredicateForKey (a : AuthData) (predicates : List PredNode)
    (key : String) : List PredNode :=
  if goLookup a.data key = Value.null then predicates
  else predicates ++
    [PredNode.node .equal
      [.expr (.keyPath key), .expr (.literal (goLookup a.data key))]]

/-- `MakeEqualPredicate`: an `And` of one `Equal(KeyPath k, Literal a.data[k])`
per field of `usingKeys`, built in order, skipping null-valued fields. -/
def MakeEqualPredicate (a : AuthData) : PredNode :=
  PredNode.node .and ((a.usingKeys).foldl a.appendEqualPredicateForKey [])

end AuthData

/-- The `Equal(KeyPath k, Literal d[k])` node for one field. -/
def equalPredicateFor (d : GoMap) (k : String) : PredNode :=
  PredNode.node .equal [.expr (.keyPath k), .expr (.literal (goLookup d k))]

/-!
## Heap model for `GetData`

`GetData` is specified as a defensive copy: the caller receives a fresh map
whose later mutation cannot reach the `AuthData`'s internal map. Go maps are
reference values, so aliasing is made explicit: a heap maps references (`Nat`)
to map contents, `GetData` allocates a fresh reference holding the copy, and a
caller-side mutation is a store at the returned reference.
-/

/-- A heap of Go map values: an allocation bound and the contents stored at
each reference. -/
structure Heap where
  next : Nat
  mem : Nat → GoMap

/-- Allocate a fresh reference holding `v`. -/
def halloc (h : Heap) (v : GoMap) : Nat × Heap :=
  (h.next, ⟨h.next + 1, fun r => if r = h.next then v else h.mem r⟩)

/-- Overwrite the map stored at reference `r` (a caller mutating the map it
was handed: adding, removing or overwriting entries yields some new contents
`v`). -/
def hset (h : Heap) (r : Nat) (v : GoMap) : Heap :=
  ⟨h.next, fun q => if q = r then v else h.mem q⟩

/-- An `AuthData` whose internal data map lives on the heap. -/
structure AuthDataRef where
  dataRef : Nat
  keys : List (List String)

/-- The heap-level view of the `AuthData` value a reference denotes. -/
def AuthDataRef.view (a : AuthDataRef) (h : Heap) : AuthData :=
  ⟨h.mem a.dataRef, a.keys⟩

/-- `GetData`: copy the internal map entry by entry into a freshly allocated
map and hand the fresh reference to the caller. -/
def GetData (a : AuthDataRef) (h : Heap) : Nat × Heap :=
  halloc h (AuthData.getDataCopy (h.mem a.dataRef))

/-!
## `AuthInfo` and the hashing collaborator

The password hashing primitive (bcrypt) is an external collaborator the spec
treats as an opaque one-way comparison capability with a per-call random salt:
a hash value records the password it was generated from and the salt, the
comparison succeeds exactly when the stored hash was generated from the
submitted password, and an absent stored credential never compares equal.
Wall-clock time (`time.Now`) is embedded as a `Nat` instant supplied by the
caller's clock.
-/

/-- An opaque one-way hash: the password it was generated from plus the
per-call random salt. The password component is never inspected except by the
comparison capability. -/
structure BcryptHash where
  pw : String
  salt : Nat
deriving DecidableEq, Repr

/-- `bcrypt.CompareHashAndPassword` as the spec's opaque one-way comparison: a
stored hash matches exactly the password it was generated from; an empty
(absent) stored hash matches nothing. -/
def compareHashAndPassword : Option BcryptHash → String → Bool
  | none, _ => false
  | some h, pw => h.pw == pw

/-- `skydb.AuthInfo`. -/
structure AuthInfo where
  ID : String
  HashedPassword : Option BcryptHash
  Roles : List String
  ProviderInfo : List (String × GoMap)
  TokenValidSince : Option Nat
  LastSeenAt : Option Nat
deriving DecidableEq, Repr

/-- `NewAnonymousAuthInfo`: an ID only, no credential. `uuid.New()` is an
external generator, so the fresh ID is a parameter. -/
def NewAnonymousAuthInfo (id : String) : AuthInfo :=
  ⟨id, none, [], [], none, none⟩

/-- `SetPassword`: hash the new password and advance the token-validity
watermark to the current clock reading. The outcome of the hashing primitive
is passed in (`hres`); on a hashing error the Go code panics, embedded as the
aborting result `none` — no updated `AuthInfo` exists in that case. -/
def SetPassword (info : AuthInfo) (hres : Except String BcryptHash)
    (now : Nat) : Option AuthInfo :=
  match hres with
  | .error _ => none
  | .ok hp => some { info with HashedPassword := some hp, TokenValidSince := some now }

/-- `IsSamePassword`: compare the stored hashed credential with the submitted
password via the one-way comparison capability. -/
def IsSamePassword (info : AuthInfo) (password : String) : Bool :=
  compareHashAndPassword info.HashedPassword password

/-!
## Field ACL rules and the update handler

`FieldAccessUpdateHandler` is embedded from the source: its request payload
struct declares no fields, so decoding drops every member of the request body
(including the posted `access` rule table), and `Handle` returns immediately
with a nil response and nil error, never touching the record store — the rule
table state passes through unchanged.
-/

/-- One FACL rule, as carried by the administrative surface:
`(record_type, record_field, user_role, writable, readable, comparable,
discoverable)`. -/
structure FieldACLRule where
  recordType : String
  recordField : String
  userRole : String
  writable : Bool
  readable : Bool
  comparable : Bool
  discoverable : Bool
deriving DecidableEq, Repr

/-- The per-field capability quadruple a FACL read resolves to. -/
structure FieldCapabilities where
  readable : Bool
  writable : Bool
  comparable : Bool
  discoverable : Bool
deriving DecidableEq, Repr

/-- Modelled from the spec: whether a rule applies to a read of
`(recordType, fieldName)` by a principal with the given roles — the rule's
role marker must match one of the principal's roles, the public marker, or the
owner marker when the principal owns the record (§4.3). The registry's
`Resolve` is repository code not included in the sources. -/
def ruleMatches (rule : FieldACLRule) (recordType fieldName : String)
    (roles : List String) (isOwner : Bool) : Bool :=
  rule.recordType == recordType && rule.recordField == fieldName &&
    (roles.contains rule.userRole || rule.userRole == "_public" ||
      (isOwner && rule.userRole == "_owner"))

/-- Modelled from the spec: the FACL registry's `Resolve` — combine every
matching rule per capability by logical OR, defaulting every capability to
false when no rule matches (deny-by-default, §4.3). The registry's `Resolve`
is repository code not included in the sources. -/
def Resolve (table : List FieldACLRule) (recordType fieldName : String)
    (roles : List String) (isOwner : Bool) : FieldCapabilities :=
  (table.filter (fun r => ruleMatches r recordType fieldName roles isOwner)).foldl
    (fun caps r =>
      ⟨caps.readable || r.readable, caps.writable || r.writable,
        caps.comparable || r.comparable, caps.discoverable || r.discoverable⟩)
    ⟨false, false, false, false⟩

/-- `FieldAccessUpdateRequestPayload`: the Go struct declares no fields. -/
structure FieldAccessUpdateRequestPayload where
deriving DecidableEq, Repr

/-- `DecodeRequest`: JSON-decode the request body into the payload struct.
Since the struct has no fields, every member of the body — in particular the
posted `access` rule table — is dropped. -/
def decodeFieldAccessUpdateRequest (_body : List FieldACLRule) :
    FieldAccessUpdateRequestPayload :=
  {}

/-- `FieldAccessUpdateRequestPayload.Validate`: always succeeds. -/
def fieldAccessUpdatePayloadValidate (_p : FieldAccessUpdateRequestPayload) :
    Option String :=
  none

/-- `FieldAccessUpdateHandler.Handle`: the body is `return`, so the response
and error are both nil and the record store is never touched — the registry's
rule table is returned unchanged. -/
def fieldAccessUpdateHandle (table : List FieldACLRule)
    (_req : FieldAccessUpdateRequestPayload) :
    List FieldACLRule × Option Value × Option String :=
  (table, none, none)

/-! ## Lemmas about `goLookup` and map updates -/

theorem goLookup_eq_null_of_not_mem {d : GoMap} {k : String}
    (h : k ∉ d.map Prod.fst) : goLookup d k = Value.null := by
  induction d with
  | nil => rfl
  | cons p rest ih =>
    simp only [List.map_cons, List.mem_cons, not_or] at h
    rw [goLookup, if_neg (fun he => h.1 he.symm)]
    exact ih h.2

theorem mem_of_goLookup_ne_null {d : GoMap} {k : String}
    (h : goLookup d k ≠ Value.null) : k ∈ d.map Prod.fst := by
  by_contra hk
  exact h (goLookup_eq_null_of_not_mem hk)

theorem goLookup_cons (p : String × Value) (d : GoMap) (k : String) :
    goLookup (p :: d) k = if p.1 = k then p.2 else goLookup d k := rfl

theorem goLookup_mapSet (d : GoMap) (k : String) (v : Value) (k' : String) :
    goLookup (mapSet d k v) k' = if k = k' then v else goLookup d k' := by
  induction d with
  | nil =>
    by_cases hk : k = k' <;> simp [mapSet, goLookup, hk]
  | cons p rest ih =>
    rw [mapSet]
    by_cases hp : p.1 = k
    · rw [if_pos hp, goLookup_cons, goLookup_cons]
      by_cases hk : k = k'
      · rw [if_pos hk, if_pos hk]
      · rw [if_neg hk, if_neg hk, if_neg (fun h : p.1 = k' => hk (hp.symm.trans h))]
    · rw [if_neg hp, goLookup_cons, goLookup_cons, ih]
      by_cases hpk : p.1 = k'
      · have hk : ¬ k = k' := fun h => hp (hpk.trans h.symm)
        rw [if_pos hpk, if_neg hk, if_pos hpk]
      · rw [if_neg hpk, if_neg hpk]

theorem goLookup_foldl_mapSet (f : String → Value) (L : List String) :
    ∀ (d0 : GoMap) (k' : String),
      goLookup (L.foldl (fun d k => mapSet d k (f k)) d0) k' =
        if k' ∈ L then f k' else goLookup d0 k' := by
  induction L with
  | nil => intro d0 k'; simp
  | cons a as ih =>
    intro d0 k'
    rw [List.foldl_cons, ih]
    by_cases hk : k' ∈ as
    · simp [hk, List.mem_cons]
    · by_cases hka : k' = a
      · simp [hk, hka, goLookup_mapSet]
      · simp [hk, hka, goLookup_mapSet, List.mem_cons, Ne.symm hka]

/-! ## Lemmas about `usingKeys` -/

theorem countP_key (d : GoMap) (k : String) (c : String → Bool)
    (hnd : (d.map Prod.fst).Nodup) :
    d.countP (fun p => k == p.1 && c p.1) =
      if k ∈ d.map Prod.fst ∧ c k = true then 1 else 0 := by
  induction d with
  | nil => simp
  | cons p rest ih =>
    rw [List.map_cons, List.nodup_cons] at hnd
    obtain ⟨hp, hnd'⟩ := hnd
    rw [List.countP_cons, ih hnd', List.map_cons]
    by_cases hk : k = p.1
    · have h0 : ¬(k ∈ rest.map Prod.fst ∧ c k = true) := by
        rintro ⟨hmem, -⟩
        exact hp (hk ▸ hmem)
      have hbeq : (k == p.1) = true := beq_iff_eq.mpr hk
      have hmem : k ∈ p.1 :: rest.map Prod.fst := by
        rw [hk]; exact List.mem_cons_self _ _
      rw [if_neg h0]
      by_cases hc : c k = true
      · have hcp : c p.1 = true := by rw [← hk]; exact hc
        have hcond : (k == p.1 && c p.1) = true := by rw [hbeq, hcp]; rfl
        have hQ : k ∈ p.1 :: rest.map Prod.fst ∧ c k = true := ⟨hmem, hc⟩
        rw [if_pos hQ]
        simp [hcond]
      · have hcp : c p.1 = false := by
          rw [← hk]; exact Bool.eq_false_iff.mpr hc
        have hcond : (k == p.1 && c p.1) = false := by rw [hbeq, hcp]; rfl
        have hQ : ¬(k ∈ p.1 :: rest.map Prod.fst ∧ c k = true) :=
          fun h => hc h.2
        rw [if_neg hQ]
        simp [hcond]
    · have hbeq : (k == p.1) = false := beq_eq_false_iff_ne.mpr hk
      have hcond : ∀ b : Bool, (k == p.1 && b) = false := by
        intro b; rw [hbeq]; rfl
      have hiff : (k ∈ p.1 :: rest.map Prod.fst ∧ c k = true) ↔
          (k ∈ rest.map Prod.fst ∧ c k = true) := by
        constructor
        · rintro ⟨hm, hc⟩
          rcases List.mem_cons.mp hm with h | h
          · exact absurd h hk
          · exact ⟨h, hc⟩
        · rintro ⟨hm, hc⟩
          exact ⟨List.mem_cons_of_mem _ hm, hc⟩
      rw [if_congr hiff rfl rfl]
      simp [hcond]

theorem keyCount_eq (a : AuthData) (k : String)
    (hnd : (a.data.map Prod.fst).Nodup) :
    a.keyCount k = if a.isFieldEmpty k then 0 else 1 := by
  rw [AuthData.keyCount,
    countP_key a.data k (fun s => !(a.isFieldEmpty s)) hnd]
  by_cases he : a.isFieldEmpty k
  · simp [he]
  · have hne : goLookup a.data k ≠ Value.null := by
      simpa [AuthData.isFieldEmpty] using he
    have hmem : k ∈ a.data.map Prod.fst := mem_of_goLookup_ne_null hne
    simp [he, hmem]

theorem foldl_add_eq (f : String → Nat) (l : List String) :
    ∀ n : Nat, l.foldl (fun c k => c + f k) n = n + (l.map f).sum := by
  induction l with
  | nil => intro n; simp
  | cons a as ih =>
    intro n
    rw [List.foldl_cons, ih, List.map_cons, List.sum_cons]
    omega

theorem sum_le_length (l : List String) (f : String → Nat)
    (hb : ∀ k ∈ l, f k ≤ 1) : (l.map f).sum ≤ l.length := by
  induction l with
  | nil => simp
  | cons a as ih =>
    rw [List.map_cons, List.sum_cons, List.length_cons]
    have h1 := hb a (List.mem_cons_self a as)
    have h2 := ih (fun k hk => hb k (List.mem_cons_of_mem a hk))
    omega

theorem sum_eq_length_iff (l : List String) (f : String → Nat)
    (hb : ∀ k ∈ l, f k ≤ 1) :
    (l.map f).sum = l.length ↔ ∀ k ∈ l, f k = 1 := by
  induction l with
  | nil => simp
  | cons a as ih =>
    rw [List.map_cons, List.sum_cons, List.length_cons, List.forall_mem_cons]
    have ha := hb a (List.mem_cons_self a as)
    have hb' : ∀ k ∈ as, f k ≤ 1 := fun k hk => hb k (List.mem_cons_of_mem a hk)
    have hs := sum_le_length as f hb'
    constructor
    · intro h
      have h1 : f a = 1 := by omega
      exact ⟨h1, (ih hb').mp (by omega)⟩
    · rintro ⟨h1, h2⟩
      have := (ih hb').mpr h2
      omega

theorem satisfiedGroup_iff (d : GoMap) (ks : List String) :
    satisfiedGroup d ks = true ↔ ∀ k ∈ ks, goLookup d k ≠ Value.null := by
  simp [satisfiedGroup, List.all_eq_true]

theorem groupCount_eq_length_iff (a : AuthData) (ks : List String)
    (hnd : (a.data.map Prod.fst).Nodup) :
    ks.length = a.groupCount ks ↔ satisfiedGroup a.data ks = true := by
  rw [AuthData.groupCount, foldl_add_eq, Nat.zero_add, satisfiedGroup_iff]
  have hb : ∀ k ∈ ks, a.keyCount k ≤ 1 := by
    intro k _
    rw [keyCount_eq a k hnd]
    split <;> omega
  rw [eq_comm, sum_eq_length_iff ks _ hb]
  constructor
  · intro h k hk
    have h1 := h k hk
    rw [keyCount_eq a k hnd] at h1
    by_cases he : a.isFieldEmpty k
    · simp [he] at h1
    · simpa [AuthData.isFieldEmpty] using he
  · intro h k hk
    rw [keyCount_eq a k hnd]
    have he : a.isFieldEmpty k = false := by
      simpa [AuthData.isFieldEmpty] using h k hk
    simp [he]

theorem usingKeysAux_eq_find (a : AuthData)
    (hnd : (a.data.map Prod.fst).Nodup) (l : List (List String)) :
    a.usingKeysAux l = (l.find? (satisfiedGroup a.data)).getD [] := by
  induction l with
  | nil => rfl
  | cons ks rest ih =>
    rw [AuthData.usingKeysAux]
    by_cases h : ks.length = a.groupCount ks
    · have hs : satisfiedGroup a.data ks = true :=
        (groupCount_eq_length_iff a ks hnd).mp h
      rw [if_pos h, List.find?_cons_of_pos _ hs, Option.getD_some]
    · have hs : ¬ satisfiedGroup a.data ks = true :=
        fun hc => h ((groupCount_eq_length_iff a ks hnd).mpr hc)
      rw [if_neg h, List.find?_cons_of_neg _ hs, ih]

/-! ## Lemmas about `allKeys` and `MakeEqualPredicate` -/

theorem mem_foldl_insertKey (ks : List String) :
    ∀ (acc : List String) (x : String),
      x ∈ ks.foldl AuthData.insertKey acc ↔ x ∈ acc ∨ x ∈ ks := by
  induction ks with
  | nil => intro acc x; simp
  | cons k rest ih =>
    intro acc x
    rw [List.foldl_cons, ih]
    rw [AuthData.insertKey]
    by_cases h : acc.contains k
    · rw [if_pos h]
      have hk : k ∈ acc := by simpa using h
      constructor
      · rintro (hx | hx)
        · exact Or.inl hx
        · exact Or.inr (List.mem_cons_of_mem _ hx)
      · rintro (hx | hx)
        · exact Or.inl hx
        · rcases List.mem_cons.mp hx with rfl | hx
          · exact Or.inl hk
          · exact Or.inr hx
    · rw [if_neg h]
      constructor
      · rintro (hx | hx)
        · rcases List.mem_append.mp hx with hx | hx
          · exact Or.inl hx
          · rcases List.mem_singleton.mp hx with rfl
            exact Or.inr (List.mem_cons_self _ _)
        · exact Or.inr (List.mem_cons_of_mem _ hx)
      · rintro (hx | hx)
        · exact Or.inl (List.mem_append.mpr (Or.inl hx))
        · rcases List.mem_cons.mp hx with rfl | hx
          · exact Or.inl (List.mem_append.mpr (Or.inr (List.mem_singleton.mpr rfl)))
          · exact Or.inr hx

theorem mem_allKeys_iff (a : AuthData) (x : String) :
    x ∈ a.allKeys ↔ ∃ g ∈ a.keys, x ∈ g := by
  have hgen : ∀ (l : List (List String)) (acc : List String),
      x ∈ l.foldl (fun acc ks => ks.foldl AuthData.insertKey acc) acc ↔
        x ∈ acc ∨ ∃ g ∈ l, x ∈ g := by
    intro l
    induction l with
    | nil => intro acc; simp
    | cons g gs ih =>
      intro acc
      rw [List.foldl_cons, ih, mem_foldl_insertKey]
      constructor
      · rintro ((hx | hx) | ⟨g', hg', hx⟩)
        · exact Or.inl hx
        · exact Or.inr ⟨g, List.mem_cons_self _ _, hx⟩
        · exact Or.inr ⟨g', List.mem_cons_of_mem _ hg', hx⟩
      · rintro (hx | ⟨g', hg', hx⟩)
        · exact Or.inl (Or.inl hx)
        · rcases List.mem_cons.mp hg' with rfl | hg'
          · exact Or.inl (Or.inr hx)
          · exact Or.inr ⟨g', hg', hx⟩
  rw [AuthData.allKeys, hgen a.keys []]
  simp

theorem foldl_appendEqual (a : AuthData) (l : List String) :
    ∀ init : List PredNode,
      l.foldl a.appendEqualPredicateForKey init =
        init ++ l.filterMap (fun k =>
          if goLookup a.data k = Value.null then none
          else some (equalPredicateFor a.data k)) := by
  induction l with
  | nil => intro init; simp
  | cons k rest ih =>
    intro init
    rw [List.foldl_cons, ih, AuthData.appendEqualPredicateForKey,
      List.filterMap_cons]
    by_cases h : goLookup a.data k = Value.null
    · rw [if_pos h, if_pos h]
    · rw [if_neg h, if_neg h]
      simp [equalPredicateFor, List.append_assoc]

/-! ## The verified claims -/

/-- C1: for every key-group configuration and data map (with the Go-map
invariant of pairwise-distinct data keys), `usingKeys` returns the first
declared group all of whose fields are present in the data with non-null
values, and the empty sequence when no group is fully satisfied;
earlier-declared groups win. -/
theorem usingKeys_eq_first_satisfied (a : AuthData)
    (hnd : (a.data.map Prod.fst).Nodup) :
    a.usingKeys = specFirstSatisfiedGroup a.data a.keys := by
  rw [AuthData.usingKeys, specFirstSatisfiedGroup, usingKeysAux_eq_find a hnd]

/-- Witness for C1, on three groups with overlapping fields: both the
`username` and `email` strategies are satisfied, and the earlier-declared
`["username"]` wins. -/
theorem usingKeys_eq_first_satisfied_witness :
    ((((AuthData.mk
        [("username", Value.str "u"), ("email", Value.str "e")]
        [["username"], ["email"], ["username", "email"]]).data.map
          Prod.fst).Nodup) ∧
      (AuthData.mk
        [("username", Value.str "u"), ("email", Value.str "e")]
        [["username"], ["email"], ["username", "email"]]).usingKeys =
        specFirstSatisfiedGroup
          [("username", Value.str "u"), ("email", Value.str "e")]
          [["username"], ["email"], ["username", "email"]]) ∧
    (AuthData.mk
      [("username", Value.str "u"), ("email", Value.str "e")]
      [["username"], ["email"], ["username", "email"]]).usingKeys =
      ["username"] :=
  ⟨⟨by decide, usingKeys_eq_first_satisfied _ (by decide)⟩, by decide⟩

/-- C2: `IsValid` holds exactly when every data field name occurs in some
declared key group (no stray attributes) and `usingKeys` is non-empty; in
particular the stray field `nickname` against groups
`[["username"], ["email"]]` is invalid. -/
theorem isValid_characterization :
    (∀ a : AuthData,
      (a.IsValid = true ↔
        (∀ k ∈ a.data.map Prod.fst, ∃ g ∈ a.keys, k ∈ g) ∧
          a.usingKeys ≠ [])) ∧
    (AuthData.mk [("nickname", Value.str "x")]
      [["username"], ["email"]]).IsValid = false := by
  constructor
  · intro a
    rw [AuthData.IsValid, Bool.and_eq_true, List.all_eq_true,
      decide_eq_true_eq]
    constructor
    · rintro ⟨h1, h2⟩
      refine ⟨?_, ?_⟩
      · intro k hk
        rcases List.mem_map.mp hk with ⟨p, hp, rfl⟩
        have hc := h1 p hp
        exact (mem_allKeys_iff a p.1).mp (by simpa using hc)
      · intro hnil
        rw [hnil] at h2
        simp at h2
    · rintro ⟨h1, h2⟩
      refine ⟨?_, ?_⟩
      · intro p hp
        have hm : p.1 ∈ a.allKeys :=
          (mem_allKeys_iff a p.1).mpr
            (h1 p.1 (List.mem_map_of_mem Prod.fst hp))
        simpa using hm
      · exact List.length_pos.mpr h2
  · decide

/-- C3: `MakeEqualPredicate` returns an `And` whose children are exactly one
`Equal(KeyPath k, Literal D[k])` per field `k` of the group returned by
`usingKeys`, in group order, skipping null-valued fields; when `usingKeys` is
empty the result is an `And` over an empty child list; the spec's concrete
example evaluates as stated. -/
theorem makeEqualPredicate_characterization :
    (∀ a : AuthData,
      a.MakeEqualPredicate = PredNode.node .and
        ((a.usingKeys).filterMap (fun k =>
          if goLookup a.data k = Value.null then none
          else some (equalPredicateFor a.data k)))) ∧
    (∀ a : AuthData, a.usingKeys = [] →
      a.MakeEqualPredicate = PredNode.node .and []) ∧
    (AuthData.mk [("username", Value.str "alice"), ("email", Value.null)]
        [["username"], ["email"]]).MakeEqualPredicate =
      PredNode.node .and
        [PredNode.node .equal
          [.expr (.keyPath "username"),
            .expr (.literal (Value.str "alice"))]] := by
  refine ⟨?_, ?_, rfl⟩
  · intro a
    rw [AuthData.MakeEqualPredicate, foldl_appendEqual]
    simp
  · intro a h
    rw [AuthData.MakeEqualPredicate, h]
    rfl

/-- Witness for C3's conditional conjunct: with no satisfiable group,
`usingKeys` is empty and `MakeEqualPredicate` is the vacuous `And`. -/
theorem makeEqualPredicate_characterization_witness :
    (AuthData.mk [] [["username"]]).usingKeys = [] ∧
    (AuthData.mk [] [["username"]]).MakeEqualPredicate =
      PredNode.node .and [] :=
  ⟨rfl, makeEqualPredicate_characterization.2.1 (AuthData.mk [] [["username"]]) rfl⟩

/-- C7: `UpdateFromRecordData` overwrites, for every field name in `allKeys`,
the internal attribute with the record's value (fields missing from the record
become null/absent under lookup), and leaves every entry whose key is not in
`allKeys` unchanged; the declared key groups are untouched. -/
theorem updateFromRecordData_spec (a : AuthData) (rec : GoMap) (k : String) :
    goLookup (a.UpdateFromRecordData rec).data k =
      (if k ∈ a.allKeys then goLookup rec k else goLookup a.data k) ∧
    (a.UpdateFromRecordData rec).keys = a.keys := by
  constructor
  · rw [AuthData.UpdateFromRecordData]
    exact goLookup_foldl_mapSet (fun k => goLookup rec k) a.allKeys a.data k
  · rfl

/-- C10: when an empty group is declared and no group before it is satisfied,
`usingKeys` returns the empty group, `IsValid` is false and
`MakeEqualPredicate` is the vacuous `And`, exactly as in the
no-group-satisfied case — the empty group masks every later satisfied
group. -/
theorem emptyGroup_masks (a : AuthData) (pre post : List (List String))
    (hnd : (a.data.map Prod.fst).Nodup)
    (hkeys : a.keys = pre ++ [] :: post)
    (hpre : ∀ g ∈ pre, satisfiedGroup a.data g = false) :
    a.usingKeys = [] ∧ a.IsValid = false ∧
      a.MakeEqualPredicate = PredNode.node .and [] := by
  have hfind : ∀ pre' : List (List String),
      (∀ g ∈ pre', satisfiedGroup a.data g = false) →
      (pre' ++ [] :: post).find? (satisfiedGroup a.data) = some [] := by
    intro pre'
    induction pre' with
    | nil =>
      intro _
      rw [List.nil_append]
      exact List.find?_cons_of_pos _ rfl
    | cons g gs ih =>
      intro h
      rw [List.cons_append,
        List.find?_cons_of_neg _ (by
          rw [h g (List.mem_cons_self _ _)]; exact Bool.false_ne_true),
        ih (fun g' hg' => h g' (List.mem_cons_of_mem _ hg'))]
  have husing : a.usingKeys = [] := by
    rw [AuthData.usingKeys, usingKeysAux_eq_find a hnd, hkeys,
      hfind pre hpre, Option.getD_some]
  refine ⟨husing, ?_, ?_⟩
  · rw [AuthData.IsValid, husing]
    simp
  · rw [AuthData.MakeEqualPredicate, husing]
    rfl

/-- Witness for C10: the empty group declared first masks the satisfied
`["username"]` group. -/
theorem emptyGroup_masks_witness :
    ((((AuthData.mk [("username", Value.str "u")]
        [[], ["username"]]).data.map Prod.fst).Nodup) ∧
      (∀ g ∈ ([] : List (List String)),
        satisfiedGroup [("username", Value.str "u")] g = false)) ∧
    ((AuthData.mk [("username", Value.str "u")] [[], ["username"]]).usingKeys
        = [] ∧
      (AuthData.mk [("username", Value.str "u")] [[], ["username"]]).IsValid
        = false ∧
      (AuthData.mk [("username", Value.str "u")]
          [[], ["username"]]).MakeEqualPredicate = PredNode.node .and []) :=
  ⟨⟨by decide, by simp⟩,
    emptyGroup_masks (AuthData.mk [("username", Value.str "u")]
      [[], ["username"]]) [] [["username"]] (by decide) rfl (by simp)⟩

/-! ## The defensive copy of `GetData` (C6) -/

theorem goLookup_getDataCopy_aux (k : String) (d : GoMap) :
    ∀ c : GoMap, (d.map Prod.fst).Nodup →
      goLookup (d.foldl (fun c p => mapSet c p.1 p.2) c) k =
        if k ∈ d.map Prod.fst then goLookup d k else goLookup c k := by
  induction d with
  | nil => intro c _; simp
  | cons p rest ih =>
    intro c hnd
    rw [List.map_cons, List.nodup_cons] at hnd
    obtain ⟨hp, hnd'⟩ := hnd
    rw [List.foldl_cons, ih _ hnd', List.map_cons, goLookup_cons]
    by_cases hk : k ∈ rest.map Prod.fst
    · have hkp : ¬ p.1 = k := fun h => hp (h ▸ hk)
      rw [if_pos hk, if_pos (List.mem_cons_of_mem _ hk), if_neg hkp]
    · rw [if_neg hk, goLookup_mapSet]
      by_cases hkp : k = p.1
      · have h1 : p.1 = k := hkp.symm
        rw [if_pos h1, if_pos (by rw [hkp]; exact List.mem_cons_self _ _),
          if_pos h1]
      · have h1 : ¬ p.1 = k := fun h => hkp h.symm
        rw [if_neg h1, if_neg h1,
          if_neg (by
            intro hm
            rcases List.mem_cons.mp hm with h | h
            · exact hkp h
            · exact hk h)]

theorem goLookup_getDataCopy (d : GoMap) (hnd : (d.map Prod.fst).Nodup)
    (k : String) :
    goLookup (AuthData.getDataCopy d) k = goLookup d k := by
  rw [AuthData.getDataCopy, goLookup_getDataCopy_aux k d [] hnd]
  by_cases hk : k ∈ d.map Prod.fst
  · rw [if_pos hk]
  · rw [if_neg hk, goLookup_eq_null_of_not_mem hk]
    rfl

/-- C6: `GetData` hands back a mapping lookup-equal to the internal data map,
allocated at a fresh reference; overwriting the returned map with any
contents whatsoever leaves the internal map, and hence the results of all
later `IsValid`, `IsEmpty`, `usingKeys` and `MakeEqualPredicate` calls,
unchanged. -/
theorem getData_defensive_copy (a : AuthDataRef) (h : Heap)
    (hv : a.dataRef < h.next)
    (hnd : ((h.mem a.dataRef).map Prod.fst).Nodup) :
    (∀ k, goLookup ((GetData a h).2.mem (GetData a h).1) k =
        goLookup (h.mem a.dataRef) k) ∧
    (∀ m : GoMap,
      (hset (GetData a h).2 (GetData a h).1 m).mem a.dataRef =
          h.mem a.dataRef ∧
      (a.view (hset (GetData a h).2 (GetData a h).1 m)).IsValid =
          (a.view h).IsValid ∧
      (a.view (hset (GetData a h).2 (GetData a h).1 m)).IsEmpty =
          (a.view h).IsEmpty ∧
      (a.view (hset (GetData a h).2 (GetData a h).1 m)).usingKeys =
          (a.view h).usingKeys ∧
      (a.view (hset (GetData a h).2 (GetData a h).1 m)).MakeEqualPredicate =
          (a.view h).MakeEqualPredicate) := by
  have hne : ¬ a.dataRef = h.next := Nat.ne_of_lt hv
  have hmem : ∀ m : GoMap,
      (hset (GetData a h).2 (GetData a h).1 m).mem a.dataRef =
        h.mem a.dataRef := by
    intro m
    show (if a.dataRef = h.next then m
      else (GetData a h).2.mem a.dataRef) = h.mem a.dataRef
    rw [if_neg hne]
    show (if a.dataRef = h.next then AuthData.getDataCopy (h.mem a.dataRef)
      else h.mem a.dataRef) = h.mem a.dataRef
    rw [if_neg hne]
  constructor
  · intro k
    show goLookup (if h.next = h.next then
      AuthData.getDataCopy (h.mem a.dataRef) else h.mem h.next) k = _
    rw [if_pos rfl]
    exact goLookup_getDataCopy _ hnd k
  · intro m
    have h1 := hmem m
    have hview : a.view (hset (GetData a h).2 (GetData a h).1 m) = a.view h := by
      rw [AuthDataRef.view, AuthDataRef.view, h1]
    exact ⟨h1, by rw [hview], by rw [hview], by rw [hview], by rw [hview]⟩

/-- Witness for C6 at a one-entry heap, exercised through the theorem. -/
theorem getData_defensive_copy_witness :
    ((AuthDataRef.mk 0 [["username"]]).dataRef <
        (Heap.mk 1 (fun r => if r = 0 then [("username", Value.str "u")]
          else [])).next ∧
      (((Heap.mk 1 (fun r => if r = 0 then [("username", Value.str "u")]
          else [])).mem
            (AuthDataRef.mk 0 [["username"]]).dataRef).map
          Prod.fst).Nodup) ∧
    ((∀ k, goLookup
        ((GetData (AuthDataRef.mk 0 [["username"]])
          (Heap.mk 1 (fun r => if r = 0 then [("username", Value.str "u")]
            else []))).2.mem
          (GetData (AuthDataRef.mk 0 [["username"]])
            (Heap.mk 1 (fun r => if r = 0 then [("username", Value.str "u")]
              else []))).1) k =
        goLookup ((Heap.mk 1 (fun r => if r = 0 then
          [("username", Value.str "u")] else [])).mem
            (AuthDataRef.mk 0 [["username"]]).dataRef) k) ∧
      (∀ m : GoMap,
        (hset (GetData (AuthDataRef.mk 0 [["username"]])
            (Heap.mk 1 (fun r => if r = 0 then
              [("username", Value.str "u")] else []))).2
          (GetData (AuthDataRef.mk 0 [["username"]])
            (Heap.mk 1 (fun r => if r = 0 then
              [("username", Value.str "u")] else []))).1 m).mem
          (AuthDataRef.mk 0 [["username"]]).dataRef =
          (Heap.mk 1 (fun r => if r = 0 then
            [("username", Value.str "u")] else [])).mem
            (AuthDataRef.mk 0 [["username"]]).dataRef ∧
        ((AuthDataRef.mk 0 [["username"]]).view
            (hset (GetData (AuthDataRef.mk 0 [["username"]])
                (Heap.mk 1 (fun r => if r = 0 then
                  [("username", Value.str "u")] else []))).2
              (GetData (AuthDataRef.mk 0 [["username"]])
                (Heap.mk 1 (fun r => if r = 0 then
                  [("username", Value.str "u")] else []))).1 m)).IsValid =
          ((AuthDataRef.mk 0 [["username"]]).view
            (Heap.mk 1 (fun r => if r = 0 then
              [("username", Value.str "u")] else []))).IsValid ∧
        ((AuthDataRef.mk 0 [["username"]]).view
            (hset (GetData (AuthDataRef.mk 0 [["username"]])
                (Heap.mk 1 (fun r => if r = 0 then
                  [("username", Value.str "u")] else []))).2
              (GetData (AuthDataRef.mk 0 [["username"]])
                (Heap.mk 1 (fun r => if r = 0 then
                  [("username", Value.str "u")] else []))).1 m)).IsEmpty =
          ((AuthDataRef.mk 0 [["username"]]).view
            (Heap.mk 1 (fun r => if r = 0 then
              [("username", Value.str "u")] else []))).IsEmpty ∧
        ((AuthDataRef.mk 0 [["username"]]).view
            (hset (GetData (AuthDataRef.mk 0 [["username"]])
                (Heap.mk 1 (fun r => if r = 0 then
                  [("username", Value.str "u")] else []))).2
              (GetData (AuthDataRef.mk 0 [["username"]])
                (Heap.mk 1 (fun r => if r = 0 then
                  [("username", Value.str "u")] else []))).1 m)).usingKeys =
          ((AuthDataRef.mk 0 [["username"]]).view
            (Heap.mk 1 (fun r => if r = 0 then
              [("username", Value.str "u")] else []))).usingKeys ∧
        ((AuthDataRef.mk 0 [["username"]]).view
            (hset (GetData (AuthDataRef.mk 0 [["username"]])
                (Heap.mk 1 (fun r => if r = 0 then
                  [("username", Value.str "u")] else []))).2
              (GetData (AuthDataRef.mk 0 [["username"]])
                (Heap.mk 1 (fun r => if r = 0 then
                  [("username", Value.str "u")]
                  else []))).1 m)).MakeEqualPredicate =
          ((AuthDataRef.mk 0 [["username"]]).view
            (Heap.mk 1 (fun r => if r = 0 then
              [("username", Value.str "u")] else []))).MakeEqualPredicate)) :=
  ⟨⟨by decide, by decide⟩,
    getData_defensive_copy (AuthDataRef.mk 0 [["username"]])
      (Heap.mk 1 (fun r => if r = 0 then [("username", Value.str "u")]
        else [])) (by decide) (by decide)⟩

/-! ## Credential claims (C4, C8, C9) -/

/-- C4: after `SetPassword` with a new password (hashed with a fresh salt at a
clock instant past the current watermark), the old password no longer
matches, the new one does, and the token-validity watermark strictly
increases to the new instant. -/
theorem setPassword_rotates_credentials (info : AuthInfo)
    (oldPw newPw : String) (salt now tv : Nat)
    (hne : oldPw ≠ newPw) (htv : info.TokenValidSince = some tv)
    (hclock : tv < now) :
    ∃ info', SetPassword info (Except.ok ⟨newPw, salt⟩) now = some info' ∧
      IsSamePassword info' oldPw = false ∧
      IsSamePassword info' newPw = true ∧
      info'.TokenValidSince = some now ∧
      ∀ t, info.TokenValidSince = some t → t < now := by
  refine ⟨_, rfl, ?_, ?_, rfl, ?_⟩
  · show compareHashAndPassword (some ⟨newPw, salt⟩) oldPw = false
    show (newPw == oldPw) = false
    exact beq_eq_false_iff_ne.mpr (fun h => hne h.symm)
  · show (newPw == newPw) = true
    exact beq_self_eq_true newPw
  · intro t ht
    rw [htv] at ht
    injection ht with h
    omega

/-- Witness for C4 on a concrete principal and clock. -/
theorem setPassword_rotates_credentials_witness :
    (("a" : String) ≠ "b" ∧
      (AuthInfo.mk "id" none [] [] (some 0) none).TokenValidSince = some 0 ∧
      (0 : Nat) < 1) ∧
    (∃ info', SetPassword (AuthInfo.mk "id" none [] [] (some 0) none)
        (Except.ok ⟨"b", 3⟩) 1 = some info' ∧
      IsSamePassword info' "a" = false ∧
      IsSamePassword info' "b" = true ∧
      info'.TokenValidSince = some 1 ∧
      ∀ t, (AuthInfo.mk "id" none [] [] (some 0) none).TokenValidSince =
        some t → t < 1) :=
  ⟨⟨by decide, rfl, by decide⟩,
    setPassword_rotates_credentials (AuthInfo.mk "id" none [] [] (some 0) none)
      "a" "b" 3 1 0 (by decide) rfl (by decide)⟩

/-- C8: an anonymous principal has no stored credential, and the one-way
comparison never succeeds for any submitted password — it can never
authenticate by credential. -/
theorem anonymous_cannot_authenticate (id p : String) :
    (NewAnonymousAuthInfo id).HashedPassword = none ∧
    IsSamePassword (NewAnonymousAuthInfo id) p = false :=
  ⟨rfl, rfl⟩

/-- C9: `SetPassword` aborts (panics — no updated principal state exists)
exactly when the hashing primitive errors; a hashing failure is never
swallowed into a normal result, and a normal result never arises from a
hashing failure. -/
theorem setPassword_hash_error_aborts (info : AuthInfo)
    (hres : Except String BcryptHash) (now : Nat) :
    SetPassword info hres now = none ↔ ∃ e, hres = Except.error e := by
  cases hres with
  | error e => simp [SetPassword]
  | ok hp => simp [SetPassword]

/-! ## The field-access bulk update (C5) -/

/-- C5: the claim (bulk-replace followed by a read is consistent with the
posted table) is violated by the code at the handler's own documented example
input — the payload struct drops the `access` array at decode time and
`Handle` returns without touching the store, so the registry's table is left
unchanged and the immediately following FACL read is not consistent with the
posted table: `readable` for the posted rule resolves `false` where the table
demands `true`. This evaluates the code at that failing input. -/
theorem fieldAccessUpdate_is_noop :
    (fieldAccessUpdateHandle []
        (decodeFieldAccessUpdateRequest
          [FieldACLRule.mk "note" "content" "_user_id:johndoe"
            false true false false])).1 = [] ∧
    (fieldAccessUpdateHandle []
        (decodeFieldAccessUpdateRequest
          [FieldACLRule.mk "note" "content" "_user_id:johndoe"
            false true false false])).2 = (none, none) ∧
    (Resolve (fieldAccessUpdateHandle []
        (decodeFieldAccessUpdateRequest
          [FieldACLRule.mk "note" "content" "_user_id:johndoe"
            false true false false])).1
      "note" "content" ["_user_id:johndoe"] false).readable = false ∧
    (Resolve [FieldACLRule.mk "note" "content" "_user_id:johndoe"
        false true false false]
      "note" "content" ["_user_id:johndoe"] false).readable = true :=
  ⟨rfl, rfl, rfl, by decide⟩

end Skygear
